import Mathlib

/-!
Shallow embedding of the yajq path-query engine (src/main.rs).

The core consists of a tokenizer `parse_expression` that splits a
dot-separated path expression into navigation steps, and a recursive
evaluator `filter` that walks a JSON value tree along those steps.

Modelling decisions, each traceable to the source:
* JSON values (`serde_json::Value`) become the inductive `Value`; numbers
  are modelled as `Int` (no claim inspects a numeric payload, only the
  scalar shape matters), and objects as association lists with first-match
  lookup (`serde_json::Map::get`; keys in a real map are unique, so
  first-match lookup coincides with map lookup).
* `YajqError` keeps the two variants reachable from `filter`:
  `Filtering(String)` with the exact format strings of the source, and
  `Parsing(ParseIntError)` produced by the `?` on `key.parse::<usize>()`.
* Rust's `&array[idx]` panics when `idx` is out of bounds; a panic is not
  a `YajqError`, so evaluation results live in `Outcome`, which has a
  distinguished `panicked` outcome beside `ok` and `err`.
* `key.parse::<usize>()` is modelled by `parseUsize`, a faithful
  translation of `core::num::from_str_radix` at radix 10 for a 64-bit
  unsigned target: empty input fails with `Empty`, a lone sign fails with
  `InvalidDigit`, a `+` sign is allowed, any non-ASCII-digit fails with
  `InvalidDigit`, and exceeding `usize::MAX` fails with `PosOverflow`.
* `expression.split('.')` is modelled by `splitDot` on the character list:
  splitting on a single-character pattern, preserving empty segments.
-/

namespace Yajq

/-- JSON value tree, after `serde_json::Value`. -/
inductive Value where
  | null
  | bool (b : Bool)
  | num (n : Int)
  | str (s : String)
  | arr (elems : List Value)
  | obj (fields : List (String × Value))

/-- One navigation step of a path expression, after `enum Token`. -/
inductive Token where
  | any
  | key (k : String)
  deriving DecidableEq

/-- Error kinds of `std::num::ParseIntError` reachable when parsing a
`usize` at radix 10. -/
inductive IntErrorKind where
  | empty
  | invalidDigit
  | posOverflow
  deriving DecidableEq

/-- The error variants of `enum YajqError` reachable from `filter`:
`Filtering(String)` and `Parsing(ParseIntError)`. -/
inductive YajqError where
  | filtering (msg : String)
  | parsing (e : IntErrorKind)
  deriving DecidableEq

/-- Result of running a Rust function that can return `Ok`, return `Err`,
or panic. -/
inductive Outcome (α : Type) where
  | ok (val : α)
  | err (e : YajqError)
  | panicked

/-- `usize::MAX` on a 64-bit target. -/
def USIZE_MAX : Nat := 2 ^ 64 - 1

/-- The digit-accumulation loop of `core::num::from_str_radix` at radix 10:
each character must be an ASCII digit, and the running value is checked
against `usize::MAX` exactly where Rust's `checked_mul`/`checked_add`
would overflow. -/
def parseDigitsLoop (acc : Nat) : List Char → Except IntErrorKind Nat
  | [] => .ok acc
  | c :: cs =>
    if c.isDigit then
      let acc' := acc * 10 + (c.toNat - '0'.toNat)
      if USIZE_MAX < acc' then .error .posOverflow
      else parseDigitsLoop acc' cs
    else .error .invalidDigit

/-- `key.parse::<usize>()`: empty input fails with `Empty`; a lone `+`
fails with `InvalidDigit`; a leading `+` is stripped; `-` is not a valid
digit for an unsigned target, so any `-` fails with `InvalidDigit`. -/
def parseUsize (s : String) : Except IntErrorKind Nat :=
  match s.data with
  | [] => .error .empty
  | c :: cs =>
    if c = '+' then
      match cs with
      | [] => .error .invalidDigit
      | _ :: _ => parseDigitsLoop 0 cs
    else parseDigitsLoop 0 (c :: cs)

/-- `expression.split('.')` on the character list: splits on `'.'`,
preserving empty segments from consecutive or boundary delimiters. -/
def splitDot : List Char → List (List Char)
  | [] => [[]]
  | c :: cs =>
    if c = '.' then [] :: splitDot cs
    else
      match splitDot cs with
      | [] => [[c]]
      | seg :: segs => (c :: seg) :: segs

/-- `fn parse_expression`: split the expression on `'.'` and map the
segment `"*"` to `Token::Any`, every other segment to `Token::Key`. -/
def parse_expression (expression : String) : List Token :=
  (splitDot expression.data).map fun seg =>
    if seg = ['*'] then Token.any else Token.key (List.asString seg)

/-- `serde_json::Map::get`: first-match lookup in the object's fields. -/
def objGet (k : String) : List (String × Value) → Option Value
  | [] => none
  | (k', v) :: fields => if k' = k then some v else objGet k fields

/-- `array.iter().map(...).collect::<Result<Vec<Value>>>()`: sequence a
list of per-element outcomes, stopping at the first non-`ok` outcome in
iteration order. -/
def collectResults : List (Outcome Value) → Outcome (List Value)
  | [] => .ok []
  | .ok v :: rest =>
    match collectResults rest with
    | .ok vs => .ok (v :: vs)
    | .err e => .err e
    | .panicked => .panicked
  | .err e :: _ => .err e
  | .panicked :: _ => .panicked

/-- `fn filter(data, tokens)`, translated clause by clause:
* empty token list: return a structural copy of `data` (`data.to_owned()`);
* `Token::Any` on an array: evaluate the remaining tokens against every
  element and collect the results (`Result` collection is fail-fast);
  on anything else: `Filtering("Can't use * on non array")`;
* `Token::Key(k)` on a scalar: `Filtering("Unit can't be filtered for key k")`;
  on an object: look `k` up, recursing on a hit and failing with
  `Filtering("Key k not in dict")` on a miss;
  on an array: `key.parse::<usize>()?` (a parse failure propagates as
  `Parsing`), then `&array[idx]`, which recurses in bounds and panics
  out of bounds. -/
def filter (data : Value) (tokens : List Token) : Outcome Value :=
  match tokens with
  | [] => .ok data
  | tok :: rest =>
    match tok with
    | .any =>
      match data with
      | .arr array =>
        match collectResults (array.map fun element => filter element rest) with
        | .ok results => .ok (.arr results)
        | .err e => .err e
        | .panicked => .panicked
      | _ => .err (.filtering "Can't use * on non array")
    | .key k =>
      match data with
      | .null | .bool _ | .num _ | .str _ =>
        .err (.filtering ("Unit can't be filtered for key " ++ k))
      | .obj fields =>
        match objGet k fields with
        | some v => filter v rest
        | none => .err (.filtering ("Key " ++ k ++ " not in dict"))
      | .arr array =>
        match parseUsize k with
        | .error e => .err (.parsing e)
        | .ok idx =>
          match array.get? idx with
          | some v => filter v rest
          | none => .panicked
termination_by structural tokens

/-- The scalar ("unit") shapes: the first arm of the `Token::Key` match. -/
def isScalar : Value → Bool
  | .null | .bool _ | .num _ | .str _ => true
  | .arr _ | .obj _ => false

/-- Whether a value is an array (the shape `Token::Any` requires). -/
def isArr : Value → Bool
  | .arr _ => true
  | _ => false

/-- Joining segments with `'.'`: the left inverse of `splitDot` used to
state that `splitDot` really is a split that preserves every segment. -/
def joinDot : List (List Char) → List Char
  | [] => []
  | [seg] => seg
  | seg :: segs => seg ++ '.' :: joinDot segs

/-! ### Helper lemmas about the tokenizer -/

theorem splitDot_ne_nil (cs : List Char) : splitDot cs ≠ [] := by
  cases cs with
  | nil => simp [splitDot]
  | cons c cs =>
    simp only [splitDot]
    split
    · simp
    · split <;> simp

theorem joinDot_cons (seg : List Char) (segs : List (List Char)) (h : segs ≠ []) :
    joinDot (seg :: segs) = seg ++ '.' :: joinDot segs := by
  cases segs with
  | nil => exact absurd rfl h
  | cons s ss => rfl

theorem splitDot_cons_dot (cs : List Char) :
    splitDot ('.' :: cs) = [] :: splitDot cs := by
  simp [splitDot]

theorem splitDot_cons_ne_dot (c : Char) (cs : List Char) (seg : List Char)
    (segs : List (List Char)) (hc : c ≠ '.') (hs : splitDot cs = seg :: segs) :
    splitDot (c :: cs) = (c :: seg) :: segs := by
  simp [splitDot, if_neg hc, hs]

theorem joinDot_splitDot (cs : List Char) : joinDot (splitDot cs) = cs := by
  induction cs with
  | nil => rfl
  | cons c cs ih =>
    by_cases hc : c = '.'
    · subst hc
      rw [splitDot_cons_dot, joinDot_cons _ _ (splitDot_ne_nil cs), ih]
      rfl
    · rcases hs : splitDot cs with _ | ⟨seg, segs⟩
      · exact absurd hs (splitDot_ne_nil cs)
      · rw [splitDot_cons_ne_dot c cs seg segs hc hs]
        have ih' : joinDot (seg :: segs) = cs := by rw [← hs]; exact ih
        cases segs with
        | nil =>
          simp only [joinDot] at ih' ⊢
          rw [ih']
        | cons s ss =>
          rw [joinDot_cons _ _ (by simp), List.cons_append]
          rw [joinDot_cons _ _ (by simp)] at ih'
          rw [ih']

theorem splitDot_no_dot (cs : List Char) (seg : List Char)
    (hmem : seg ∈ splitDot cs) : '.' ∉ seg := by
  induction cs generalizing seg with
  | nil =>
    simp [splitDot] at hmem
    subst hmem
    simp
  | cons c cs ih =>
    by_cases hc : c = '.'
    · subst hc
      rw [splitDot_cons_dot] at hmem
      rcases List.mem_cons.mp hmem with rfl | hmem2
      · simp
      · exact ih seg hmem2
    · rcases hs : splitDot cs with _ | ⟨s, ss⟩
      · exact absurd hs (splitDot_ne_nil cs)
      · rw [splitDot_cons_ne_dot c cs s ss hc hs] at hmem
        rcases List.mem_cons.mp hmem with rfl | hmem2
        · intro hdot
          rcases List.mem_cons.mp hdot with h1 | h2
          · exact hc h1.symm
          · exact ih s (by rw [hs]; exact List.mem_cons_self s ss) h2
        · exact ih seg (by rw [hs]; exact List.mem_cons_of_mem s hmem2)

/-! ### Helper lemmas about the evaluator -/

/-- Unfolding `filter` at a `Key` step on an object. -/
theorem filter_key_obj (fields : List (String × Value)) (k : String)
    (rest : List Token) :
    filter (.obj fields) (.key k :: rest) =
      match objGet k fields with
      | some v => filter v rest
      | none => .err (.filtering ("Key " ++ k ++ " not in dict")) := rfl

/-- Unfolding `filter` at a `Key` step on an array. -/
theorem filter_key_arr (array : List Value) (k : String) (rest : List Token) :
    filter (.arr array) (.key k :: rest) =
      match parseUsize k with
      | .error e => .err (.parsing e)
      | .ok idx =>
        match array.get? idx with
        | some v => filter v rest
        | none => .panicked := rfl

/-- Unfolding `filter` at an `Any` step on an array. -/
theorem filter_any_arr (elems : List Value) (rest : List Token) :
    filter (.arr elems) (.any :: rest) =
      match collectResults (elems.map fun element => filter element rest) with
      | .ok results => .ok (.arr results)
      | .err e => .err e
      | .panicked => .panicked := rfl

/-- Collecting the mapped per-element outcomes succeeds with `rs` exactly
when evaluation relates the elements to `rs` pointwise, in order. -/
theorem collectResults_map_ok_iff (elems : List Value) (rest : List Token)
    (rs : List Value) :
    collectResults (elems.map fun element => filter element rest) = .ok rs ↔
      List.Forall₂ (fun v r => filter v rest = .ok r) elems rs := by
  induction elems generalizing rs with
  | nil => cases rs <;> simp [collectResults]
  | cons v vs ih =>
    rcases hv : filter v rest with r | e | _ <;>
      rcases hrest : collectResults (vs.map fun element => filter element rest)
        with rs' | e' | _ <;>
      cases rs <;>
      simp [collectResults, hv, hrest, ← ih]

/-- If entry `i` of the outcome list is an error and every earlier entry is
`ok`, collecting fails with exactly that error. -/
theorem collectResults_err_at (outs : List (Outcome Value)) (i : Nat)
    (hi : i < outs.length) (e : YajqError)
    (herr : outs.get ⟨i, hi⟩ = .err e)
    (hok : ∀ (j : Nat) (hj : j < outs.length), j < i → ∃ r, outs.get ⟨j, hj⟩ = .ok r) :
    collectResults outs = .err e := by
  induction outs generalizing i with
  | nil => exact absurd hi (Nat.not_lt_zero i)
  | cons o os ih =>
    cases i with
    | zero =>
      have : o = .err e := herr
      rw [this]
      rfl
    | succ i =>
      obtain ⟨r, hr⟩ := hok 0 (Nat.succ_pos _) (Nat.succ_pos i)
      have ho : o = .ok r := hr
      have htail : collectResults os = .err e := by
        refine ih i (Nat.lt_of_succ_lt_succ hi) herr ?_
        intro j hj hlt
        exact hok (j + 1) (Nat.succ_lt_succ hj) (Nat.succ_lt_succ hlt)
      rw [ho]
      simp [collectResults, htail]

/-- `get` commutes with mapping evaluation over the elements. -/
theorem get_map_filter (elems : List Value) (rest : List Token) (i : Nat)
    (hi : i < elems.length)
    (hi' : i < (elems.map fun element => filter element rest).length) :
    (elems.map fun element => filter element rest).get ⟨i, hi'⟩ =
      filter (elems.get ⟨i, hi⟩) rest := by
  simp [List.getElem_map]

/-! ### The claims -/

/-- Claim C1: the claim says that a `Key` step on an array whose text
parses to an index at or past the end fails with a typed
`IndexOutOfBounds(index, length)` error. The code has no such error
variant: `&array[idx]` panics on an out-of-bounds index. Witnessed at the
array `[null]` (length 1) and the step `Key "1"`: `"1"` parses to the
index 1 ≥ 1, and evaluation panics instead of returning an error. -/
theorem index_out_of_bounds_panics :
    filter (Value.arr [Value.null]) [Token.key "1"] = Outcome.panicked
      ∧ ∀ e, Outcome.panicked ≠ (Outcome.err e : Outcome Value) := by
  refine ⟨rfl, ?_⟩
  intro e h
  cases h

/-- Claim C2: on an array, a `Key` step whose text fails `usize` parsing
makes evaluation fail with the `Parsing` error that propagates the exact
underlying `ParseIntError` (the spec's `InvalidIndex`), for every
remaining token list; this error is distinct from every `Filtering` error
and from the panic outcome that an in-range-parse/out-of-bounds index
produces. -/
theorem invalid_index_parsing_error (array : List Value) (k : String)
    (e : IntErrorKind) (rest : List Token) (h : parseUsize k = .error e) :
    filter (.arr array) (.key k :: rest) = .err (.parsing e)
      ∧ (∀ msg, YajqError.parsing e ≠ YajqError.filtering msg)
      ∧ (Outcome.err (YajqError.parsing e) : Outcome Value) ≠ Outcome.panicked := by
  refine ⟨?_, ?_, ?_⟩
  · rw [filter_key_arr, h]
  · intro msg hmsg
    cases hmsg
  · intro hp
    cases hp

theorem invalid_index_parsing_error_witness :
    parseUsize "x" = .error .invalidDigit
      ∧ (filter (Value.arr []) [Token.key "x"]
            = .err (.parsing .invalidDigit)
          ∧ (∀ msg, YajqError.parsing .invalidDigit ≠ YajqError.filtering msg)
          ∧ (Outcome.err (YajqError.parsing .invalidDigit) : Outcome Value)
              ≠ Outcome.panicked) :=
  ⟨rfl, invalid_index_parsing_error [] "x" .invalidDigit [] rfl⟩

/-- Claim C3: on an object, a `Key name` step recurses into the looked-up
field's value with the remaining tokens when the name is present, and
fails with the `Key name not in dict` error (the spec's
`KeyNotFound(name)`) when it is absent. -/
theorem object_key_lookup (fields : List (String × Value)) (k : String)
    (rest : List Token) :
    (∀ v, objGet k fields = some v →
        filter (.obj fields) (.key k :: rest) = filter v rest)
      ∧ (objGet k fields = none →
          filter (.obj fields) (.key k :: rest)
            = .err (.filtering ("Key " ++ k ++ " not in dict"))) := by
  constructor
  · intro v hv
    rw [filter_key_obj, hv]
  · intro hn
    rw [filter_key_obj, hn]

theorem object_key_lookup_witness :
    (objGet "x" [("x", Value.null)] = some Value.null
      ∧ filter (Value.obj [("x", Value.null)]) [Token.key "x"]
          = filter Value.null [])
    ∧ (objGet "z" [("x", Value.null)] = none
      ∧ filter (Value.obj [("x", Value.null)]) [Token.key "z"]
          = .err (.filtering ("Key " ++ "z" ++ " not in dict"))) :=
  ⟨⟨rfl, (object_key_lookup [("x", Value.null)] "x" []).1 Value.null rfl⟩,
   ⟨rfl, (object_key_lookup [("x", Value.null)] "z" []).2 rfl⟩⟩

/-- Claim C4: an `Any` step on an array evaluates the remaining tokens
against every element: it succeeds with an array `rs` exactly when
evaluation relates the elements to `rs` pointwise in original order
(`List.Forall₂` forces equal lengths and order preservation); any
successful result is an array; and if element `i` fails with error `e`
while every earlier element succeeds, the whole step fails with `e` —
fail-fast, the first failure in iteration order wins. -/
theorem wildcard_fanout (elems : List Value) (rest : List Token) :
    (∀ rs : List Value,
        filter (.arr elems) (.any :: rest) = .ok (.arr rs) ↔
          List.Forall₂ (fun v r => filter v rest = .ok r) elems rs)
      ∧ (∀ out, filter (.arr elems) (.any :: rest) = .ok out →
          ∃ rs, out = Value.arr rs)
      ∧ (∀ (i : Nat) (hi : i < elems.length) (e : YajqError),
          filter (elems.get ⟨i, hi⟩) rest = .err e →
          (∀ (j : Nat) (hj : j < elems.length), j < i →
            ∃ r, filter (elems.get ⟨j, hj⟩) rest = .ok r) →
          filter (.arr elems) (.any :: rest) = .err e) := by
  refine ⟨?_, ?_, ?_⟩
  · intro rs
    rw [filter_any_arr, ← collectResults_map_ok_iff]
    rcases hcr : collectResults (elems.map fun element => filter element rest)
      with rs' | e | _ <;> simp
  · intro out hout
    rw [filter_any_arr] at hout
    rcases hcr : collectResults (elems.map fun element => filter element rest)
      with rs' | e | _ <;> rw [hcr] at hout <;> simp at hout
    exact ⟨rs', hout.symm⟩
  · intro i hi e herr hok
    rw [filter_any_arr]
    have hlen : (elems.map fun element => filter element rest).length
        = elems.length := List.length_map elems _
    have hcr : collectResults (elems.map fun element => filter element rest)
        = .err e := by
      refine collectResults_err_at _ i (by rw [hlen]; exact hi) e ?_ ?_
      · rw [get_map_filter elems rest i hi]
        exact herr
      · intro j hj hlt
        obtain ⟨r, hr⟩ := hok j (by rw [hlen] at hj; exact hj) hlt
        exact ⟨r, by rw [get_map_filter elems rest j (by rw [hlen] at hj; exact hj)]; exact hr⟩
    rw [hcr]

theorem wildcard_fanout_witness :
    filter (Value.arr [Value.null]) [Token.any, Token.key "a"]
      = .err (.filtering ("Unit can't be filtered for key " ++ "a")) :=
  (wildcard_fanout [Value.null] [Token.key "a"]).2.2 0 (by decide)
    (.filtering ("Unit can't be filtered for key " ++ "a")) rfl
    (fun j _ hlt => absurd hlt (Nat.not_lt_zero j))

/-- Claim C5: the tokenizer is total: every input string yields a
non-empty token sequence, and the empty string yields exactly the
one-element sequence `[Key ""]`. -/
theorem tokenizer_totality :
    (∀ s : String, 0 < (parse_expression s).length)
      ∧ parse_expression "" = [Token.key ""] := by
  constructor
  · intro s
    have h := splitDot_ne_nil s.data
    simpa [parse_expression] using List.length_pos.mpr h
  · rfl

/-- Claim C6: the tokenizer splits the input on `'.'` into an ordered
sequence of substrings that joins back to the input (so every substring,
including empty ones from consecutive or boundary delimiters, is
preserved), no substring contains `'.'`, and each substring maps to `Any`
exactly when it equals `"*"` and to `Key(substring)` otherwise. -/
theorem tokenizer_split_characterization (s : String) :
    joinDot (splitDot s.data) = s.data
      ∧ (∀ seg ∈ splitDot s.data, '.' ∉ seg)
      ∧ parse_expression s = (splitDot s.data).map
          (fun seg => if seg = ['*'] then Token.any
            else Token.key (List.asString seg)) :=
  ⟨joinDot_splitDot s.data, fun seg h => splitDot_no_dot s.data seg h, rfl⟩

theorem tokenizer_split_characterization_witness :
    joinDot (splitDot "a.b".data) = "a.b".data
      ∧ (['a'] ∈ splitDot "a.b".data ∧ '.' ∉ (['a'] : List Char)) :=
  ⟨(tokenizer_split_characterization "a.b").1,
   by decide,
   (tokenizer_split_characterization "a.b").2.1 ['a'] (by decide)⟩

/-- Claim C7: evaluating any value against the empty token sequence
succeeds and returns the value itself (a structural copy in the source,
`data.to_owned()`). -/
theorem empty_path_identity (v : Value) : filter v [] = Outcome.ok v := rfl

/-- Claim C8: a `Key name` step on a scalar value (null, boolean, number,
or string) fails with the `Unit can't be filtered for key name` error
(the spec's `CannotDescendIntoScalar(name)`), for every remaining token
list. -/
theorem scalar_key_fails (v : Value) (k : String) (rest : List Token)
    (h : isScalar v = true) :
    filter v (.key k :: rest)
      = .err (.filtering ("Unit can't be filtered for key " ++ k)) := by
  cases v <;> first | rfl | simp [isScalar] at h

theorem scalar_key_fails_witness :
    isScalar Value.null = true
      ∧ filter Value.null [Token.key "a"]
          = .err (.filtering ("Unit can't be filtered for key " ++ "a")) :=
  ⟨rfl, scalar_key_fails Value.null "a" [] rfl⟩

/-- Claim C9: an `Any` step on a non-array value (null, boolean, number,
string, or object) fails with the `Can't use * on non array` error (the
spec's `WildcardOnNonArray`), for every remaining token list. -/
theorem wildcard_non_array_fails (v : Value) (rest : List Token)
    (h : isArr v = false) :
    filter v (.any :: rest) = .err (.filtering "Can't use * on non array") := by
  cases v <;> first | rfl | simp [isArr] at h

theorem wildcard_non_array_fails_witness :
    (isArr Value.null = false
      ∧ filter Value.null [Token.any]
          = .err (.filtering "Can't use * on non array"))
    ∧ (isArr (Value.obj []) = false
      ∧ filter (Value.obj []) [Token.any]
          = .err (.filtering "Can't use * on non array")) :=
  ⟨⟨rfl, wildcard_non_array_fails Value.null [] rfl⟩,
   ⟨rfl, wildcard_non_array_fails (Value.obj []) [] rfl⟩⟩

/-- Claim C10: an `Any` step on an empty array succeeds with an empty
array whatever the remaining tokens are — the fan-out over zero elements
never evaluates them. -/
theorem empty_array_wildcard (rest : List Token) :
    filter (Value.arr []) (Token.any :: rest) = Outcome.ok (Value.arr []) :=
  rfl

/-! ### The repository's own unit tests, replayed on the embedding -/

theorem replay_test_filter_simple :
    filter (.obj [("x", .str "value")]) (parse_expression "x")
      = .ok (.str "value") := rfl

theorem replay_test_filter_index :
    filter (.obj [("x", .arr [.str "value"])]) (parse_expression "x.0")
      = .ok (.str "value") := rfl

theorem replay_test_filter_star :
    filter (.obj [("x", .arr [.obj [("name", .str "value1")],
        .obj [("name", .str "value2")]])]) (parse_expression "x.*.name")
      = .ok (.arr [.str "value1", .str "value2"]) := rfl

theorem replay_test_filter_multiple_stars :
    filter (.obj [("x", .arr [.arr [.obj [("name", .str "value1")]],
        .arr [.obj [("name", .str "value2")]]])]) (parse_expression "x.*.*.name")
      = .ok (.arr [.arr [.str "value1"], .arr [.str "value2"]]) := rfl

theorem replay_test_parse_expression :
    parse_expression "a.12.*.c"
      = [Token.key "a", Token.key "12", Token.any, Token.key "c"] := rfl

end Yajq
